import Mathlib

/-!
# Verification of QuantLib's bisection solver and term-structure contracts

Shallow embedding of `ql/Solvers1D/bisection.hpp` (`Bisection::solveImpl`)
and of the term-structure / quote / observer contracts exercised by
`test-suite/termstructures.cpp`.  `Real` is modelled by `ℚ`: the bisection
arithmetic (halving, midpoints) is exact in binary floating point, and the
claims under study are about the control flow and exact comparisons of the
algorithm, which coincide over `ℚ`.
-/

/-- Result of `Bisection::solveImpl`: either a returned root together with the
final value of `evaluationNumber_`, or the `QL_FAIL("maximum number of function
evaluations (...) exceeded")` path, recorded with the reported
`maxEvaluations_` and the final value of `evaluationNumber_`. -/
inductive SolveResult where
  | ok (root : ℚ) (evals : ℕ)
  | budgetExceeded (maxEvals : ℕ) (evals : ℕ)
deriving DecidableEq, Repr

/-- `std::fabs`, exact over `ℚ`. -/
def fabs (x : ℚ) : ℚ := if x < 0 then -x else x

/-- The `while (evaluationNumber_ <= maxEvaluations_)` loop of
`Bisection::solveImpl` (bisection.hpp lines 55-65).  The loop guard is encoded
by the `fuel` argument, which the caller sets to
`maxEvaluations_ + 1 - evaluationNumber_`, the exact number of times the C++
guard can succeed; `e` tracks `evaluationNumber_`.  Each pass halves `dx`,
evaluates `f` at `xMid = root_ + dx`, increments the counter, moves `root_` to
`xMid` when `fMid <= 0`, and returns when
`std::fabs(dx) < xAccuracy || fMid == 0`.  The C++ locals are inlined (`f` is
pure): after the halving, `dx` is `dx / 2`, `xMid` is `root + dx / 2` and
`fMid` is `f (root + dx / 2)`; the updated `root_` is
`if f (root + dx / 2) ≤ 0 then root + dx / 2 else root`. -/
def bisectLoop (f : ℚ → ℚ) (xAccuracy : ℚ) (maxEvaluations : ℕ) :
    ℕ → ℚ → ℚ → ℕ → SolveResult
  | 0, _, _, e => .budgetExceeded maxEvaluations e
  | fuel + 1, root, dx, e =>
      if fabs (dx / 2) < xAccuracy ∨ f (root + dx / 2) = 0 then
        .ok (if f (root + dx / 2) ≤ 0 then root + dx / 2 else root) (e + 1)
      else
        bisectLoop f xAccuracy maxEvaluations fuel
          (if f (root + dx / 2) ≤ 0 then root + dx / 2 else root) (dx / 2) (e + 1)

set_option linter.unusedVariables false in
/-- `Bisection::solveImpl` (bisection.hpp lines 36-71).  The orientation step
(lines 47-53): when `fxMin_ < 0.0` the search starts at `root_ = xMin_` with
`dx = xMax_ - xMin_`, otherwise at `root_ = xMax_` with `dx = xMin_ - xMax_`;
then the evaluation loop runs.  `fxMax` is part of the solver state
(`fxMax_`) but is not read by `solveImpl`; `evaluationNumber` is the counter
value on entry (set by `Solver1D::solve`) and `maxEvaluations` the budget. -/
def Bisection.solveImpl (f : ℚ → ℚ) (xAccuracy xMin xMax fxMin fxMax : ℚ)
    (evaluationNumber maxEvaluations : ℕ) : SolveResult :=
  if fxMin < 0 then
    bisectLoop f xAccuracy maxEvaluations
      (maxEvaluations + 1 - evaluationNumber) xMin (xMax - xMin) evaluationNumber
  else
    bisectLoop f xAccuracy maxEvaluations
      (maxEvaluations + 1 - evaluationNumber) xMax (xMin - xMax) evaluationNumber

/-- The final value of `evaluationNumber_` when `solveImpl` finishes. -/
def SolveResult.finalEvals : SolveResult → ℕ
  | .ok _ e => e
  | .budgetExceeded _ e => e

/-- The root returned by `solveImpl`, or `none` on the failure path. -/
def SolveResult.toRoot : SolveResult → Option ℚ
  | .ok r _ => some r
  | .budgetExceeded _ _ => none

/-- State of the bisection search as the spec describes it: a current root
estimate and the current step. -/
structure BisectState where
  root : ℚ
  step : ℚ
deriving DecidableEq, Repr

/-- Spec wording: "orient the search so the root lies in the direction where
`f>0`", starting the root at `xMin` when `fxMin < 0` and at `xMax`
otherwise, with the step pointing across the bracket. -/
def specOrient (xMin xMax fxMin : ℚ) : BisectState :=
  if fxMin < 0 then ⟨xMin, xMax - xMin⟩ else ⟨xMax, xMin - xMax⟩

/-- Spec wording: "halve the step each iteration", evaluating `f` at the point
one half-step from the current root and moving the root there when the value
is not positive.  Returns the new state and the evaluated function value. -/
def specHalve (f : ℚ → ℚ) (s : BisectState) : BisectState × ℚ :=
  let halved := s.step / 2
  let mid := s.root + halved
  let fMid := f mid
  (⟨if fMid ≤ 0 then mid else s.root, halved⟩, fMid)

/-- Spec wording: "accept early if `|step| < accuracy` or `f == 0` exactly". -/
def specAccept (xAccuracy step fMid : ℚ) : Prop :=
  fabs step < xAccuracy ∨ fMid = 0

instance specAcceptDecidable (xAccuracy step fMid : ℚ) :
    Decidable (specAccept xAccuracy step fMid) := by
  unfold specAccept; infer_instance

/-- The spec's bisection iteration, run for a bounded number of evaluations;
`none` when the budget runs out before acceptance. -/
def specRun (f : ℚ → ℚ) (xAccuracy : ℚ) : ℕ → BisectState → Option ℚ
  | 0, _ => none
  | n + 1, s =>
      let p := specHalve f s
      if specAccept xAccuracy p.1.step p.2 then some p.1.root
      else specRun f xAccuracy n p.1

/-- The bisection policy exactly as the spec states it: orient, then iterate
halving steps under an evaluation budget. -/
def specBisection (f : ℚ → ℚ) (xAccuracy xMin xMax fxMin : ℚ) (budget : ℕ) :
    Option ℚ :=
  specRun f xAccuracy budget (specOrient xMin xMax fxMin)

/-- Modelled from the spec: the implementation of `YieldTermStructure` is not
part of the source sample (only its tests are), so a curve is reduced to the
spec's data model — "a reference date ... and a primitive discount-factor
function `D(date)`".  Dates/times are modelled by `ℚ`. -/
structure TermStructureModel where
  referenceDate : ℚ
  discount : ℚ → ℚ

/-- Modelled from the spec: `ImpliedTermStructure` ("new reference date `d0`;
`discount(t) = baseCurve.discount(t) / baseCurve.discount(d0)`"); the
implementation file `ql/TermStructures/impliedtermstructure.hpp` is not in the
source sample. -/
def impliedTermStructure (base : TermStructureModel) (newRefDate : ℚ) :
    TermStructureModel :=
  ⟨newRefDate, fun t => base.discount t / base.discount newRefDate⟩

/-- Modelled from the spec: a curve viewed through its instantaneous-forward
function, as needed for `ForwardSpreadedTermStructure`; the implementation
file `ql/TermStructures/forwardspreadedtermstructure.hpp` is not in the
source sample. -/
structure ForwardCurveModel where
  referenceDate : ℚ
  instantaneousForward : ℚ → ℚ

/-- Modelled from the spec: `ForwardSpreadedTermStructure`
("`instantaneousForward(t) = baseCurve.instantaneousForward(t) +
spreadQuote.value()`"). -/
def forwardSpreadedTermStructure (base : ForwardCurveModel) (spread : ℚ) :
    ForwardCurveModel :=
  ⟨base.referenceDate, fun t => base.instantaneousForward t + spread⟩

/-- Modelled from the spec: the discount factor of a `FlatForward` curve with
a fixed continuously-compounded rate, `NullCalendar` settlement (plain day
arithmetic) and an `Actual/360` day count, when the global evaluation date is
`evalDate` — `ql/TermStructures/flatforward.hpp` is not in the source sample.
The reference date is `evalDate + settlementDays` and
`discount(d) = exp(-rate * (d - referenceDate) / 360)`; per the spec the
discount is "defined in terms of the evaluation date in effect at call time,
not at construction time".  Dates are day serial numbers in `ℤ`. -/
noncomputable def flatForwardDiscount (rate : ℝ) (settlementDays : ℤ)
    (evalDate d : ℤ) : ℝ :=
  Real.exp (-(rate * ((d : ℝ) - ((evalDate + settlementDays : ℤ) : ℝ)) / 360))

/-- Modelled from the spec: the three derived-curve decorator kinds (implied,
forward-spreaded, zero-spreaded); their implementation files are not in the
source sample. -/
inductive DecoratorKind where
  | implied
  | forwardSpreaded
  | zeroSpreaded
deriving DecidableEq, Repr

/-- Modelled from the spec: the observation wiring between a base-curve
`Handle`, a single decorator curve observing it, and the observers registered
with the decorator.  Observers are identified by naturals; an observable's
registered set is a `Finset` (registration is idempotent). -/
structure DecoratorSystem where
  kind : DecoratorKind
  decoratorId : ℕ
  handleObservers : Finset ℕ
  decoratorObservers : Finset ℕ

/-- Modelled from the spec: constructing a decorator curve on a (possibly
empty) base `Handle` immediately registers the decorator with the Handle —
"notification wiring must already be in place before the link". -/
def mkDecorator (kind : DecoratorKind) (decoratorId : ℕ) : DecoratorSystem :=
  ⟨kind, decoratorId, {decoratorId}, ∅⟩

/-- Modelled from the spec: `registerWith` adds an observer to the
decorator's registered set (idempotently). -/
def DecoratorSystem.registerWith (s : DecoratorSystem) (o : ℕ) :
    DecoratorSystem :=
  { s with decoratorObservers := insert o s.decoratorObservers }

/-- Modelled from the spec: the notifications delivered when `linkTo` is
first called on the base Handle.  `linkTo` "replaces the referenced instance
and notifies" each of the Handle's registered observers once; a decorator,
being a chained Observable, forwards the update by notifying its own
registered observers once each.  The multiset collects one entry per `update()`
delivered. -/
def linkToNotifications (s : DecoratorSystem) : Multiset ℕ :=
  s.handleObservers.val.bind
    (fun o => if o = s.decoratorId then s.decoratorObservers.val else {o})

/-- Modelled from the spec: `SimpleQuote` — "an observable scalar;
`value()` fails if no value set" — with its registered observer set. -/
structure SimpleQuote where
  value? : Option ℚ
  observers : Finset ℕ

/-- Modelled from the spec: `setValue(x)`: "no-op (no notification) if `x`
equals the current value under exact comparison; otherwise stores and
notifies".  Returns the new quote and the multiset of `update()` deliveries
(one per registered observer when a notification is sent). -/
def SimpleQuote.setValue (q : SimpleQuote) (x : ℚ) : SimpleQuote × Multiset ℕ :=
  if q.value? = some x then (q, 0)
  else ({ q with value? := some x }, q.observers.val)

/-! ## Helper lemmas about the bisection loop -/

theorem fabs_eq_abs (x : ℚ) : fabs x = |x| := by
  unfold fabs
  split
  · exact (abs_of_neg (by assumption)).symm
  · exact (abs_of_nonneg (by linarith [not_lt.mp (by assumption)])).symm

theorem bisectLoop_toRoot_eq_specRun (f : ℚ → ℚ) (xAccuracy : ℚ) (N : ℕ) :
    ∀ fuel root dx e,
      (bisectLoop f xAccuracy N fuel root dx e).toRoot
        = specRun f xAccuracy fuel ⟨root, dx⟩
  | 0, _, _, _ => rfl
  | fuel + 1, root, dx, e => by
      rw [bisectLoop, specRun]
      simp only [specHalve, specAccept]
      split_ifs <;>
        first
          | rfl
          | exact bisectLoop_toRoot_eq_specRun f xAccuracy N fuel _ _ _

theorem bisectLoop_shape (f : ℚ → ℚ) (xAccuracy : ℚ) (N : ℕ) :
    ∀ fuel root dx e,
      (∃ r e', bisectLoop f xAccuracy N fuel root dx e = .ok r e')
      ∨ (∃ e', bisectLoop f xAccuracy N fuel root dx e = .budgetExceeded N e')
  | 0, _, _, e => Or.inr ⟨e, rfl⟩
  | fuel + 1, root, dx, e => by
      by_cases h : fabs (dx / 2) < xAccuracy ∨ f (root + dx / 2) = 0
      · rw [bisectLoop, if_pos h]
        exact Or.inl ⟨_, _, rfl⟩
      · rw [bisectLoop, if_neg h]
        exact bisectLoop_shape f xAccuracy N fuel _ _ _

theorem bisectLoop_ok_evals (f : ℚ → ℚ) (xAccuracy : ℚ) (N : ℕ) :
    ∀ fuel root dx e r e',
      bisectLoop f xAccuracy N fuel root dx e = .ok r e' → e < e'
  | 0, _, _, _, _, _ => by
      intro h
      rw [bisectLoop] at h
      exact SolveResult.noConfusion h
  | fuel + 1, root, dx, e, r, e' => by
      by_cases h : fabs (dx / 2) < xAccuracy ∨ f (root + dx / 2) = 0
      · rw [bisectLoop, if_pos h]
        intro hok
        injection hok with _ he
        omega
      · rw [bisectLoop, if_neg h]
        intro hok
        have := bisectLoop_ok_evals f xAccuracy N fuel _ _ (e + 1) r e' hok
        omega

theorem bisectLoop_ok_cert (f : ℚ → ℚ) (xAccuracy : ℚ) (N : ℕ) :
    ∀ fuel root dx e r e',
      bisectLoop f xAccuracy N fuel root dx e = .ok r e' →
      fabs dx / 2 ^ (e' - e) < xAccuracy ∨ f r = 0
  | 0, _, _, _, _, _ => by
      intro h
      rw [bisectLoop] at h
      exact SolveResult.noConfusion h
  | fuel + 1, root, dx, e, r, e' => by
      by_cases h : fabs (dx / 2) < xAccuracy ∨ f (root + dx / 2) = 0
      · rw [bisectLoop, if_pos h]
        intro hok
        injection hok with hr he
        subst he
        have hstep : fabs dx / 2 ^ (e + 1 - e) = fabs (dx / 2) := by
          have h1 : e + 1 - e = 1 := by omega
          simp only [fabs_eq_abs, abs_div, abs_two]
          rw [h1, pow_one]
        rcases h with h | h
        · exact Or.inl (by rw [hstep]; exact h)
        · refine Or.inr ?_
          rw [← hr, if_pos (le_of_eq h)]
          exact h
      · rw [bisectLoop, if_neg h]
        intro hok
        have hlt := bisectLoop_ok_evals f xAccuracy N fuel _ _ (e + 1) r e' hok
        rcases bisectLoop_ok_cert f xAccuracy N fuel _ _ (e + 1) r e' hok
          with h2 | h2
        · refine Or.inl ?_
          have harith :
              fabs dx / 2 ^ (e' - e) = fabs (dx / 2) / 2 ^ (e' - (e + 1)) := by
            have h3 : e' - e = (e' - (e + 1)) + 1 := by omega
            simp only [fabs_eq_abs, abs_div, abs_two]
            rw [h3, pow_succ]
            ring
          rw [harith]
          exact h2
        · exact Or.inr h2

theorem bisectLoop_finalEvals_le (f : ℚ → ℚ) (xAccuracy : ℚ) (N : ℕ) :
    ∀ fuel root dx e,
      (bisectLoop f xAccuracy N fuel root dx e).finalEvals ≤ fuel + e
  | 0, _, _, e => by
      rw [bisectLoop]
      simp only [SolveResult.finalEvals]
      omega
  | fuel + 1, root, dx, e => by
      by_cases h : fabs (dx / 2) < xAccuracy ∨ f (root + dx / 2) = 0
      · rw [bisectLoop, if_pos h]
        simp only [SolveResult.finalEvals]
        omega
      · rw [bisectLoop, if_neg h]
        have := bisectLoop_finalEvals_le f xAccuracy N fuel
          (if f (root + dx / 2) ≤ 0 then root + dx / 2 else root) (dx / 2) (e + 1)
        omega

theorem bisectLoop_invariant (f : ℚ → ℚ) (xAccuracy : ℚ) (N : ℕ) (lo hi : ℚ) :
    ∀ fuel root dx e r e',
      lo ≤ root → root ≤ hi → lo ≤ root + dx → root + dx ≤ hi → f root ≤ 0 →
      bisectLoop f xAccuracy N fuel root dx e = .ok r e' →
      f r ≤ 0 ∧ lo ≤ r ∧ r ≤ hi
  | 0, _, _, _, _, _ => by
      intro _ _ _ _ _ h
      rw [bisectLoop] at h
      exact SolveResult.noConfusion h
  | fuel + 1, root, dx, e, r, e' => by
      intro h1 h2 h3 h4 hf
      have hmidlo : lo ≤ root + dx / 2 := by linarith
      have hmidhi : root + dx / 2 ≤ hi := by linarith
      have hdx : root + dx / 2 + dx / 2 = root + dx := by ring
      by_cases hm : f (root + dx / 2) ≤ 0
      · rw [bisectLoop, if_pos hm]
        by_cases h : fabs (dx / 2) < xAccuracy ∨ f (root + dx / 2) = 0
        · rw [if_pos h]
          intro hok
          injection hok with hr _
          subst hr
          exact ⟨hm, hmidlo, hmidhi⟩
        · rw [if_neg h]
          intro hok
          exact bisectLoop_invariant f xAccuracy N lo hi fuel _ _ (e + 1) r e'
            hmidlo hmidhi (by rw [hdx]; exact h3) (by rw [hdx]; exact h4) hm hok
      · rw [bisectLoop, if_neg hm]
        by_cases h : fabs (dx / 2) < xAccuracy ∨ f (root + dx / 2) = 0
        · rw [if_pos h]
          intro hok
          injection hok with hr _
          subst hr
          exact ⟨hf, h1, h2⟩
        · rw [if_neg h]
          intro hok
          exact bisectLoop_invariant f xAccuracy N lo hi fuel _ _ (e + 1) r e'
            h1 h2 hmidlo hmidhi hf hok

/-! ## Claim theorems -/

/-- C1: `Bisection::solveImpl`, given a bracket `[xMin, xMax]` with `fxMin`
and `fxMax` of opposite sign, follows the stated algorithm: it orients the
search so that the root lies in the direction where `f>0` (starting the root
at `xMin` when `fxMin < 0`, otherwise at `xMax`), halves the step `dx` on
every iteration, and returns early exactly when `|dx| <` the requested
accuracy or the midpoint evaluation `f(xMid)` is exactly `0`: the code
embedding refines the spec-worded algorithm `specBisection`. -/
theorem solveImpl_refines_spec_bisection (f : ℚ → ℚ)
    (xAccuracy xMin xMax fxMin fxMax : ℚ) (e0 N : ℕ)
    (hbracket : fxMin * fxMax < 0) :
    (Bisection.solveImpl f xAccuracy xMin xMax fxMin fxMax e0 N).toRoot
      = specBisection f xAccuracy xMin xMax fxMin (N + 1 - e0) := by
  unfold Bisection.solveImpl specBisection specOrient
  split_ifs with h
  · exact bisectLoop_toRoot_eq_specRun f xAccuracy N _ xMin (xMax - xMin) e0
  · exact bisectLoop_toRoot_eq_specRun f xAccuracy N _ xMax (xMin - xMax) e0

/-- Witness for C1 at `f = id`, bracket `[-1, 1]`, accuracy `2`. -/
theorem solveImpl_refines_spec_bisection_witness :
    ((-1 : ℚ) * 1 < 0)
    ∧ (Bisection.solveImpl (fun x => x) 2 (-1) 1 (-1) 1 0 3).toRoot
        = specBisection (fun x => x) 2 (-1) 1 (-1) (3 + 1 - 0) :=
  ⟨by norm_num,
   solveImpl_refines_spec_bisection (fun x => x) 2 (-1) 1 (-1) 1 0 3 (by norm_num)⟩

/-- C2: `solveImpl` either returns a root or raises the budget-exceeded
failure reporting `maxEvaluations_`; any returned root comes with its
convergence certificate (the halved step went below the accuracy, or the
function value at the returned midpoint is exactly zero), so an unconverged
estimate is never returned; and concretely, with a budget of 1 evaluation on
the bracket `[1, 2]` of `x^3 - x - 2` (which needs more iterations) it fails
rather than returning a guess. -/
theorem solveImpl_budget_failure (f : ℚ → ℚ)
    (xAccuracy xMin xMax fxMin fxMax : ℚ) (e0 N : ℕ) :
    ((∃ r e', Bisection.solveImpl f xAccuracy xMin xMax fxMin fxMax e0 N = .ok r e')
      ∨ (∃ e', Bisection.solveImpl f xAccuracy xMin xMax fxMin fxMax e0 N
            = .budgetExceeded N e'))
    ∧ (∀ r e',
        Bisection.solveImpl f xAccuracy xMin xMax fxMin fxMax e0 N = .ok r e' →
        fabs (xMax - xMin) / 2 ^ (e' - e0) < xAccuracy ∨ f r = 0)
    ∧ Bisection.solveImpl (fun x => x ^ 3 - x - 2) (1 / 100000000) 1 2 (-2) 4 0 1
        = .budgetExceeded 1 2 := by
  refine ⟨?_, ?_, ?_⟩
  · unfold Bisection.solveImpl
    split_ifs with h
    · exact bisectLoop_shape f xAccuracy N _ xMin (xMax - xMin) e0
    · exact bisectLoop_shape f xAccuracy N _ xMax (xMin - xMax) e0
  · intro r e' hok
    unfold Bisection.solveImpl at hok
    split_ifs at hok with h
    · exact bisectLoop_ok_cert f xAccuracy N _ xMin (xMax - xMin) e0 r e' hok
    · have hcert := bisectLoop_ok_cert f xAccuracy N _ xMax (xMin - xMax) e0 r e' hok
      have habs : fabs (xMin - xMax) = fabs (xMax - xMin) := by
        simp only [fabs_eq_abs]
        exact abs_sub_comm _ _
      rw [habs] at hcert
      exact hcert
  · norm_num [Bisection.solveImpl, bisectLoop, fabs]

/-- Witness for C2's convergence-certificate clause at `f = id` on `[-1, 1]`,
accuracy `2`, where the solver returns root `0` after one evaluation. -/
theorem solveImpl_budget_failure_witness :
    fabs ((1 : ℚ) - (-1)) / 2 ^ (1 - 0) < 2 ∨ (fun x : ℚ => x) 0 = 0 :=
  (solveImpl_budget_failure (fun x => x) 2 (-1) 1 (-1) 1 0 10).2.1 0 1
    (by norm_num [Bisection.solveImpl, bisectLoop, fabs])

/-- C3 counterexample: with initial evaluation count 0 and budget
`maxEvaluations_ = 1`, `solveImpl` on the constant function `-1` with
accuracy `0` performs two evaluations — the final `evaluationNumber_` is 2,
exceeding the budget — because the loop guard is
`evaluationNumber_ <= maxEvaluations_` and the counter is incremented after
the guard is checked. -/
theorem solveImpl_eval_budget_counterexample :
    Bisection.solveImpl (fun _ => -1) 0 0 1 (-1) (-1) 0 1 = .budgetExceeded 1 2
    ∧ ¬ (Bisection.solveImpl (fun _ => -1) 0 0 1 (-1) (-1) 0 1).finalEvals ≤ 1 := by
  refine ⟨?_, ?_⟩ <;>
    norm_num [Bisection.solveImpl, bisectLoop, fabs, SolveResult.finalEvals]

/-- C3 (amended): `solveImpl` evaluates `f` at most
`maxEvaluations_ + 1 - evaluationNumber_` times, i.e. the final value of
`evaluationNumber_` is at most `max evaluationNumber_ (maxEvaluations_ + 1)` —
one more than the budget — before either returning a root or raising the
budget-exceeded failure; the iteration is bounded by the evaluation budget
and by nothing else. -/
theorem solveImpl_finalEvals_le (f : ℚ → ℚ)
    (xAccuracy xMin xMax fxMin fxMax : ℚ) (e0 N : ℕ) :
    (Bisection.solveImpl f xAccuracy xMin xMax fxMin fxMax e0 N).finalEvals
      ≤ max e0 (N + 1) := by
  unfold Bisection.solveImpl
  split_ifs with h
  · have := bisectLoop_finalEvals_le f xAccuracy N (N + 1 - e0) xMin (xMax - xMin) e0
    omega
  · have := bisectLoop_finalEvals_le f xAccuracy N (N + 1 - e0) xMax (xMin - xMax) e0
    omega

set_option maxRecDepth 10000 in
set_option maxHeartbeats 4000000 in
/-- C4: bisection applied to `f(x) = x^3 - x - 2` with the bracket `[1, 2]`
(entered with `fxMin = -2`, two evaluations already counted by the bracketing
phase) and accuracy `1e-8` terminates within the default budget of 100
evaluations, returning `204196127/134217728 ≈ 1.5213797018`, which is within
the accuracy of the known root `1.521379707`. -/
theorem solveImpl_cubic_converges :
    Bisection.solveImpl (fun x => x ^ 3 - x - 2) (1 / 100000000) 1 2 (-2) 4 2 100
      = .ok (204196127 / 134217728) 29
    ∧ fabs (204196127 / 134217728 - 1521379707 / 1000000000) < 1 / 100000000 := by
  constructor
  · norm_num [Bisection.solveImpl, bisectLoop, fabs]
  · norm_num [fabs]

/-- C5: for every base curve and re-basing date `r` not before the base
curve's reference date, an `ImpliedTermStructure` re-based at `r` satisfies
`discount(t) = baseCurve.discount(t) / baseCurve.discount(r)`, hence
`baseCurve.discount(r) * impliedCurve.discount(t)` equals
`baseCurve.discount(t)` within `1e-10` for every date `t > r` (spec-modelled:
the decorator's implementation is absent from the source sample). -/
theorem implied_discount_consistency (base : TermStructureModel) (r t : ℚ)
    (href : base.referenceDate ≤ r) (ht : r < t) (hpos : 0 < base.discount r) :
    fabs (base.discount r * (impliedTermStructure base r).discount t
      - base.discount t) ≤ 1 / 10 ^ 10 := by
  have hne : base.discount r ≠ 0 := ne_of_gt hpos
  show fabs (base.discount r * (base.discount t / base.discount r)
      - base.discount t) ≤ 1 / 10 ^ 10
  have key : base.discount r * (base.discount t / base.discount r)
      - base.discount t = 0 := by
    field_simp
  rw [key]
  norm_num [fabs]

/-- Witness for C5 on the base curve with discount `1 / (t + 2)`, re-based at
`r = 1`, queried at `t = 2`. -/
theorem implied_discount_consistency_witness :
    fabs ((fun t : ℚ => 1 / (t + 2)) 1
        * (impliedTermStructure ⟨0, fun t => 1 / (t + 2)⟩ 1).discount 2
      - (fun t : ℚ => 1 / (t + 2)) 2) ≤ 1 / 10 ^ 10 :=
  implied_discount_consistency ⟨0, fun t => 1 / (t + 2)⟩ 1 2
    (by norm_num) (by norm_num) (by norm_num)

/-- C6: for every base curve, spread value, and date `t` not before the
reference date, a `ForwardSpreadedTermStructure` satisfies
`instantaneousForward(t) = baseCurve.instantaneousForward(t) + spread`, so
the spreaded forward minus the spread equals the base forward within `1e-10`
(spec-modelled: the decorator's implementation is absent from the source
sample). -/
theorem forward_spreaded_consistency (base : ForwardCurveModel) (spread t : ℚ)
    (ht : base.referenceDate ≤ t) :
    fabs ((forwardSpreadedTermStructure base spread).instantaneousForward t
      - spread - base.instantaneousForward t) ≤ 1 / 10 ^ 10 := by
  show fabs (base.instantaneousForward t + spread - spread
      - base.instantaneousForward t) ≤ 1 / 10 ^ 10
  have key : base.instantaneousForward t + spread - spread
      - base.instantaneousForward t = 0 := by ring
  rw [key]
  norm_num [fabs]

/-- Witness for C6 on the base forward curve `f(t) = t` with spread `1/100`
at `t = 5`. -/
theorem forward_spreaded_consistency_witness :
    fabs ((forwardSpreadedTermStructure ⟨0, fun t => t⟩ (1 / 100)).instantaneousForward 5
      - 1 / 100 - (fun t : ℚ => t) 5) ≤ 1 / 10 ^ 10 :=
  forward_spreaded_consistency ⟨0, fun t => t⟩ (1 / 100) 5 (by norm_num)

/-- C7: for a flat curve built with a fixed rate, discounts are invariant
under evaluation-date translation: `discount(today+30+d)` computed after
advancing the evaluation date by 30 days equals `discount(today+d)` computed
before advancing, for every offset `d` (spec-modelled: `FlatForward`'s
implementation is absent from the source sample). -/
theorem flat_forward_reference_change_invariance (rate : ℝ)
    (settlementDays today d : ℤ) :
    flatForwardDiscount rate settlementDays (today + 30) (today + 30 + d)
      = flatForwardDiscount rate settlementDays today (today + d) := by
  unfold flatForwardDiscount
  congr 1
  push_cast
  ring

/-- C8: for every decorator curve (of any of the three kinds) constructed
with an empty base Handle — which wires the decorator as the Handle's sole
registered observer — and for every observer registered with the decorator
before the base is linked, the very first `linkTo` call on that Handle
notifies the observer exactly once (spec-modelled: the Observable/Handle
implementation is absent from the source sample). -/
theorem decorator_first_link_notifies_once (s : DecoratorSystem)
    (hwired : s.handleObservers = {s.decoratorId}) (o : ℕ)
    (hreg : o ∈ s.decoratorObservers) :
    Multiset.count o (linkToNotifications s) = 1 := by
  unfold linkToNotifications
  rw [hwired]
  simp only [Finset.singleton_val, Multiset.singleton_bind, if_pos rfl]
  exact Multiset.count_eq_one_of_mem s.decoratorObservers.nodup
    (Finset.mem_def.mp hreg)

/-- Witness for C8: an implied decorator (id 7) built on an empty Handle,
with observer 5 registered before the first link. -/
theorem decorator_first_link_notifies_once_witness :
    Multiset.count 5
      (linkToNotifications ((mkDecorator .implied 7).registerWith 5)) = 1 :=
  decorator_first_link_notifies_once ((mkDecorator .implied 7).registerWith 5)
    rfl 5 (by decide)

/-- C9: for every `SimpleQuote` holding value `v`, `setValue(x)` notifies the
quote's observers if and only if `x` differs from `v` under exact comparison:
when `x = v` it is a no-op with no notification; otherwise it stores `x` and
notifies each registered observer exactly once (spec-modelled: `SimpleQuote`'s
implementation is absent from the source sample). -/
theorem setValue_notifies_iff_changed (q : SimpleQuote) (v x : ℚ)
    (hv : q.value? = some v) :
    (x = v → q.setValue x = (q, 0))
    ∧ (x ≠ v → (q.setValue x).1.value? = some x
        ∧ ∀ o ∈ q.observers, Multiset.count o (q.setValue x).2 = 1) := by
  constructor
  · intro hx
    have hcond : q.value? = some x := by rw [hv, hx]
    unfold SimpleQuote.setValue
    rw [if_pos hcond]
  · intro hx
    have hcond : ¬q.value? = some x := by
      rw [hv]
      intro hc
      exact hx (Option.some_injective ℚ hc).symm
    unfold SimpleQuote.setValue
    rw [if_neg hcond]
    refine ⟨rfl, ?_⟩
    intro o ho
    exact Multiset.count_eq_one_of_mem q.observers.nodup (Finset.mem_def.mp ho)

/-- Witness for C9: a quote holding `1` with observer 5, set to the distinct
value `2`. -/
theorem setValue_notifies_iff_changed_witness :
    ((2 : ℚ) = 1 → SimpleQuote.setValue ⟨some 1, {5}⟩ 2 = (⟨some 1, {5}⟩, 0))
    ∧ ((2 : ℚ) ≠ 1 →
        (SimpleQuote.setValue ⟨some 1, {5}⟩ 2).1.value? = some 2
        ∧ ∀ o ∈ ({5} : Finset ℕ),
            Multiset.count o (SimpleQuote.setValue ⟨some 1, {5}⟩ 2).2 = 1) :=
  setValue_notifies_iff_changed ⟨some 1, {5}⟩ 1 2 rfl

/-- C10 counterexample: with the valid bracket `fxMin = 0` (zero),
`fxMax = 1` (positive) on `[0, 1]` for `f = id` and accuracy `1`, the
orientation places `root_` at `xMax = 1`, where `f` is positive, and that
point is returned — so the candidate root is not always a point where `f` is
non-positive. -/
theorem solveImpl_root_sign_counterexample :
    ((0 : ℚ) ≤ 0 ∧ 0 < (1 : ℚ))
    ∧ Bisection.solveImpl (fun x => x) 1 0 1 0 1 0 2 = .ok 1 1
    ∧ ¬ (fun x : ℚ => x) 1 ≤ 0 := by
  refine ⟨⟨le_refl 0, ?_⟩, ?_, ?_⟩ <;>
    norm_num [Bisection.solveImpl, bisectLoop, fabs]

/-- C10 (amended): given a bracket where either `fxMin` is strictly negative,
or `fxMin` is positive and `fxMax` non-positive (so the initial `root_` is a
point where `f` is non-positive), the invariant holds: `root_` is moved to
the midpoint only when `f(xMid) ≤ 0`, every candidate root satisfies
`f(root_) ≤ 0`, and every returned root lies inside the initial bracket
`[xMin, xMax]`. -/
theorem solveImpl_root_nonpositive_in_bracket (f : ℚ → ℚ)
    (xAccuracy xMin xMax fxMin fxMax : ℚ) (e0 N : ℕ) (r : ℚ) (e' : ℕ)
    (horder : xMin ≤ xMax) (hfmin : f xMin = fxMin) (hfmax : f xMax = fxMax)
    (hsign : fxMin < 0 ∨ (0 < fxMin ∧ fxMax ≤ 0))
    (hok : Bisection.solveImpl f xAccuracy xMin xMax fxMin fxMax e0 N
      = .ok r e') :
    f r ≤ 0 ∧ xMin ≤ r ∧ r ≤ xMax := by
  unfold Bisection.solveImpl at hok
  split_ifs at hok with h
  · refine bisectLoop_invariant f xAccuracy N xMin xMax _ xMin (xMax - xMin)
      e0 r e' le_rfl horder (by linarith) (by linarith) ?_ hok
    rw [hfmin]
    exact le_of_lt h
  · rcases hsign with h1 | ⟨h1, h2⟩
    · exact absurd h1 h
    refine bisectLoop_invariant f xAccuracy N xMin xMax _ xMax (xMin - xMax)
      e0 r e' horder le_rfl (by linarith) (by linarith) ?_ hok
    rw [hfmax]
    exact h2

/-- Witness for the amended C10 at `f = id` on `[-1, 1]` with accuracy `2`,
where the returned root is `0`. -/
theorem solveImpl_root_nonpositive_in_bracket_witness :
    (fun x : ℚ => x) 0 ≤ 0 ∧ (-1 : ℚ) ≤ 0 ∧ (0 : ℚ) ≤ 1 :=
  solveImpl_root_nonpositive_in_bracket (fun x => x) 2 (-1) 1 (-1) 1 0 10 0 1
    (by norm_num) rfl rfl (Or.inl (by norm_num))
    (by norm_num [Bisection.solveImpl, bisectLoop, fabs])
